import Mathlib

/-!
# A verification development for the quire configuration-validation library

This file gives a shallow embedding of the validator framework of the
`quire` crate (files `src/validate.rs`, `src/errors.rs`) and proves
properties of it.

Modelling conventions:

* Rust `BTreeMap<String, Ast>` is modelled as a key-sorted association list
  (`alInsert` keeps the list sorted by the byte/codepoint order that
  `BTreeMap` uses; UTF-8 byte order and codepoint order coincide).
* Machine integers (`i64`, `usize`) are modelled as `Int`/`Nat`; the
  `i64` parse functions perform the explicit range check that
  `i64::from_str_radix` performs, and the suffix multiplication in
  `from_numeric` wraps to the `i64` range (two's-complement wraparound,
  the release-mode semantics of Rust integer overflow).
* Rust string operations in `validate.rs` slice at byte offsets; the model
  works at the character level, which coincides with the source for ASCII
  data.  (On non-ASCII input the source could panic at a non-boundary byte
  slice; such panics are outside the model.)  Where the source measures a
  string's `len()` — a byte count — the model uses the UTF-8 byte count
  `utf8Len`.
* Fallible code and reachable panics (`unwrap`, `unreachable!`) are
  modelled by `Option`: `none` is a panic.
* The iteration order of a Rust `HashSet` (used only for the
  "Keys {..} are not expected" message) is unspecified; the model lists
  those keys in map order, a deterministic refinement.
-/

namespace Quire

/-- Source position attached to every AST node and every error
(`tokenizer::Pos`: filename, line, offset within the line). -/
structure Pos where
  filename : String
  line : Nat
  line_offset : Nat
deriving DecidableEq

/-- Modelled from the spec: the `ast` module is not among the provided
sources.  Spec §3 defines the tag as `NonSpecific` (no explicit tag) or
`LocalTag name` (an explicit `!Name` annotation). -/
inductive Tag where
  | NonSpecific
  | LocalTag (name : String)
deriving DecidableEq

/-- Modelled from the spec (§3): whether a scalar's literal syntax was
quoted. -/
inductive ScalarKind where
  | Quoted
  | Plain
deriving DecidableEq

/-- Modelled from the spec (§3): whether absence of a value was inferred
(`Implicit`) or explicitly written (`Explicit`). -/
inductive NullKind where
  | Implicit
  | Explicit
deriving DecidableEq

/-- Modelled from the spec (§3): the document tree.  Every node carries a
position and a tag; `Map` entries are an ordered-by-key mapping. -/
inductive Ast where
  | Scalar (pos : Pos) (tag : Tag) (kind : ScalarKind) (text : String)
  | Map (pos : Pos) (tag : Tag) (entries : List (String × Ast))
  | List (pos : Pos) (tag : Tag) (elements : List Ast)
  | Null (pos : Pos) (tag : Tag) (kind : NullKind)

/-- Modelled from the spec (§3): every node carries a position. -/
def Ast.pos : Ast → Pos
  | .Scalar p _ _ _ => p
  | .Map p _ _ => p
  | .List p _ _ => p
  | .Null p _ _ => p

/-- Modelled from the spec (§3): every node carries a tag. -/
def Ast.tag : Ast → Tag
  | .Scalar _ t _ _ => t
  | .Map _ t _ => t
  | .List _ t _ => t
  | .Null _ t _ => t

/-- Modelled from the spec (§3/§4.5): `Enum` "stamps the resolved variant
tag onto its output"; `with_tag` replaces the node's tag. -/
def Ast.with_tag : Ast → Tag → Ast
  | .Scalar p _ k s, t => .Scalar p t k s
  | .Map p _ m, t => .Map p t m
  | .List p _ l, t => .List p t l
  | .Null p _ k, t => .Null p t k

/-- Modelled from the spec (§4.8): the rendering of a value used in the
`Nothing` validator's "Null expected, {rendered value} found" message.
The `Display` implementation lives in the absent `ast` module; the exact
text is immaterial to the properties proved here. -/
def Ast.render : Ast → String
  | .Scalar _ _ _ s => s
  | .Map _ _ _ => "mapping"
  | .List _ _ _ => "sequence"
  | .Null _ _ _ => "null"

/-- `errors::ErrorPos` — filename, line, offset. -/
structure ErrorPos where
  filename : String
  line : Nat
  offset : Nat
deriving DecidableEq

/-- `errors::Error`.  (`OpenError`/`TokenizerError` carry foreign payloads
and are never produced by the validators; the message-carrying variants
are modelled.) -/
inductive Error where
  | ParseError (pos : ErrorPos) (msg : String)
  | ValidationError (pos : ErrorPos) (msg : String)
  | PreprocessError (pos : ErrorPos) (msg : String)
  | DecodeError (pos : ErrorPos) (path : String) (msg : String)
deriving DecidableEq

def errorPosOf (pos : Pos) : ErrorPos :=
  ⟨pos.filename, pos.line, pos.line_offset⟩

/-- `Error::validation_error`. -/
def Error.validation_error (pos : Pos) (msg : String) : Error :=
  .ValidationError (errorPosOf pos) msg

/-- `Error::parse_error`. -/
def Error.parse_error (pos : Pos) (msg : String) : Error :=
  .ParseError (errorPosOf pos) msg

/-- `errors::ErrorList`: the ordered list of collected errors. -/
abbrev ErrorList := List Error

/-- `errors::ErrorCollector` is `Rc<RefCell<Option<ErrorList>>>`: a cell
holding `some list` while the session is live, `none` once a terminal
consume has taken the list.  Operations that `unwrap` the cell are
modelled in `Option`: `none` is the panic on a consumed collector. -/
abbrev CollectorState := Option ErrorList

/-- `ErrorCollector::new`. -/
def ErrorCollector.new : CollectorState := some []

/-- `ErrorCollector::add_error` (panics — `none` — if already consumed). -/
def ErrorCollector.add_error : CollectorState → Error → Option CollectorState
  | some l, e => some (some (l ++ [e]))
  | none, _ => none

/-- `ErrorCollector::into_fatal`: takes the list (emptying the cell),
appends the fatal error, and returns the list. -/
def ErrorCollector.into_fatal :
    CollectorState → Error → Option (ErrorList × CollectorState)
  | some l, e => some (l ++ [e], none)
  | none, _ => none

/-- `ErrorCollector::into_result`: takes the list (emptying the cell);
`Err` with the list if any error was collected, `Ok val` otherwise. -/
def ErrorCollector.into_result {T : Type} :
    CollectorState → T → Option (Except ErrorList T × CollectorState)
  | some l, v => some (if l.length > 0 then .error l else .ok v, none)
  | none, _ => none

/-- `ErrorCollector::unwrap`: takes the list, emptying the cell. -/
def ErrorCollector.unwrap : CollectorState → Option (ErrorList × CollectorState)
  | some l => some (l, none)
  | none => none

/-- Recording a sequence of errors into a collector (repeated
`add_error`). -/
def ErrorCollector.record : CollectorState → List Error → Option CollectorState
  | st, [] => some st
  | st, e :: es =>
    match ErrorCollector.add_error st e with
    | some st' => ErrorCollector.record st' es
    | none => none

/-! ## String helpers

The validators measure and slice strings; these helpers work on
`String.data` (the character list). -/

/-- UTF-8 byte length of a string — the model of Rust `str::len()`. -/
def utf8Len (s : String) : Nat :=
  s.data.foldl (fun n c => n + c.utf8Size) 0

/-- `s.replace("_", "-")` for the structure-member alias lookup. -/
def dashed (s : String) : String :=
  ⟨s.data.map (fun c => if c = '_' then '-' else c)⟩

/-- Whether a key starts with `_` (`str::starts_with("_")`). -/
def startsWithUnderscore (s : String) : Bool :=
  match s.data with
  | c :: _ => c = '_'
  | [] => false

/-- First `n` characters. -/
def strTakeChars (s : String) (n : Nat) : String := ⟨s.data.take n⟩

/-- All but the first `n` characters. -/
def strDropChars (s : String) (n : Nat) : String := ⟨s.data.drop n⟩

/-! ## Integer parsing and printing (`i64` model) -/

def i64Min : Int := -(2 ^ 63)
def i64Max : Int := 2 ^ 63 - 1

/-- Value of one digit character in the given radix, as accepted by
`i64::from_str_radix` (0-9, a-z, A-Z, value below the radix). -/
def digitVal (base : Nat) (c : Char) : Option Nat :=
  let d : Option Nat :=
    if '0' ≤ c ∧ c ≤ '9' then some (c.toNat - 48)
    else if 'a' ≤ c ∧ c ≤ 'z' then some (c.toNat - 97 + 10)
    else if 'A' ≤ c ∧ c ≤ 'Z' then some (c.toNat - 65 + 10)
    else none
  match d with
  | some v => if v < base then some v else none
  | none => none

def parseDigitsAux (base : Nat) : List Char → Nat → Option Nat
  | [], acc => some acc
  | c :: cs, acc =>
    match digitVal base c with
    | some d => parseDigitsAux base cs (acc * base + d)
    | none => none

/-- Parse a non-empty run of digits in the given radix. -/
def parseDigits (base : Nat) : List Char → Option Nat
  | [] => none
  | c :: cs => parseDigitsAux base (c :: cs) 0

/-- Model of `i64::from_str_radix` (and, at radix 10, of
`i64::from_str`): optional sign, non-empty digits, result must fit in
`i64`. -/
def from_str_radix (base : Nat) (s : String) : Option Int :=
  let signed : Option Int :=
    match s.data with
    | '+' :: rest => (parseDigits base rest).map (fun n => (n : Int))
    | '-' :: rest => (parseDigits base rest).map (fun n => -(n : Int))
    | rest => (parseDigits base rest).map (fun n => (n : Int))
  signed.bind (fun x => if i64Min ≤ x ∧ x ≤ i64Max then some x else none)

/-- Two's-complement wraparound into the `i64` range. -/
def wrap64 (x : Int) : Int := (x + 2 ^ 63) % 2 ^ 64 - 2 ^ 63

def digitCharOf (n : Nat) : Char := Char.ofNat (48 + n)

/-- Decimal digits of `n`, most significant first (`fuel` bounds the
recursion; any `fuel ≥ n` suffices, see `natDigitsAux_fuel`). -/
def natDigitsAux : Nat → Nat → List Char
  | 0, _ => []
  | fuel + 1, n =>
    if n = 0 then [] else natDigitsAux fuel (n / 10) ++ [digitCharOf (n % 10)]

/-- Decimal rendering of a natural number. -/
def natToString (n : Nat) : String :=
  if n = 0 then "0" else ⟨natDigitsAux (n + 1) n⟩

/-- Model of `i64::to_string` (`Display` for `i64`). -/
def i64_to_string (v : Int) : String :=
  if v < 0 then "-" ++ natToString (-v).toNat else natToString v.toNat

/-! ## `from_numeric` (validate.rs lines 23-30, 132-154) -/

/-- The `NUMERIC_SUFFIXES` table, in declaration order. -/
def NUMERIC_SUFFIXES : List (String × Int) :=
  [("k", 1000), ("M", 1000000), ("G", 1000000000),
   ("ki", 1024), ("Mi", 1048576), ("Gi", 1024 * 1024 * 1024)]

/-- The `for`-loop with `break` over the suffix table: the first entry in
declaration order whose suffix is strictly shorter than the string and a
suffix of it. -/
def findSuffix : List (String × Int) → String → Option (String × Int)
  | [], _ => none
  | (suf, m) :: rest, src =>
    if suf.data.length < src.data.length ∧ suf.data.isSuffixOf src.data
    then some (suf, m)
    else findSuffix rest src

/-- `from_numeric`: strip a recognized unit suffix, parse the remainder
as decimal, retry as a `0x`/`0o`/`0b` radix literal when the decimal
parse fails and at least 3 characters remain, multiply by the suffix
value. -/
def from_numeric (src0 : String) : Option Int :=
  let stripped : String × Int :=
    match findSuffix NUMERIC_SUFFIXES src0 with
    | some (suf, m) =>
      (strTakeChars src0 (src0.data.length - suf.data.length), m)
    | none => (src0, 1)
  let src := stripped.1
  let mult := stripped.2
  let val0 := from_str_radix 10 src
  let val :=
    if val0.isNone ∧ src.data.length > 2 then
      if strTakeChars src 2 = "0x" then from_str_radix 16 (strDropChars src 2)
      else if strTakeChars src 2 = "0o" then from_str_radix 8 (strDropChars src 2)
      else if strTakeChars src 2 = "0b" then from_str_radix 2 (strDropChars src 2)
      else none
    else val0
  val.map (fun x => wrap64 (x * mult))

/-! ## Path checks (`Directory`, Unix semantics of `std::path`) -/

/-- `Path::is_absolute` on Unix: the path starts with `/`. -/
def isAbsolutePath (s : String) : Bool :=
  match s.data with
  | '/' :: _ => true
  | _ => false

/-- Split a character list at `/` separators. -/
def splitSlash : List Char → List (List Char)
  | [] => [[]]
  | c :: cs =>
    if c = '/' then [] :: splitSlash cs
    else
      match splitSlash cs with
      | seg :: rest => (c :: seg) :: rest
      | [] => [[c]]

/-- Number of `ParentDir` components of the path: `Path::components`
yields `ParentDir` exactly for the literal `..` segments (empty and `.`
segments, which components-normalization elides, are never `..`). -/
def parentDirCount (s : String) : Nat :=
  ((splitSlash s.data).filter (fun seg => seg = ['.', '.'])).length

/-! ## Sorted association list: the `BTreeMap<String, Ast>` model -/

/-- Byte/codepoint lexicographic order on strings — the `Ord` used by
`BTreeMap<String, _>`. -/
def strLtB : List Char → List Char → Bool
  | [], [] => false
  | [], _ :: _ => true
  | _ :: _, [] => false
  | a :: as_, b :: bs =>
    if a.toNat < b.toNat then true
    else if a.toNat = b.toNat then strLtB as_ bs
    else false

/-- `BTreeMap::remove`: the removed value (if present) and the remaining
map. -/
def alRemove : List (String × Ast) → String → Option Ast × List (String × Ast)
  | [], _ => (none, [])
  | (k', v) :: rest, k =>
    if k' = k then (some v, rest)
    else
      let r := alRemove rest k
      (r.1, (k', v) :: r.2)

/-- `BTreeMap::insert`: insert in sorted position, replacing an existing
binding. -/
def alInsert : List (String × Ast) → String → Ast → List (String × Ast)
  | [], k, v => [(k, v)]
  | (k', v') :: rest, k, v =>
    if strLtB k.data k'.data then (k, v) :: (k', v') :: rest
    else if k = k' then (k, v) :: rest
    else (k', v') :: alInsert rest k v

/-- The value bound to `k`, if any. -/
def alLookup : List (String × Ast) → String → Option Ast
  | [], _ => none
  | (k', v) :: rest, k => if k' = k then some v else alLookup rest k

/-! ## The validators (validate.rs)

One constructor per concrete schema node.  The `descr` field of each
Rust struct is a documentation string never read by `validate`/`default`
and is omitted.  `from_scalar`/`parser` hooks are function fields, as in
the source (`fn (Ast) -> BTreeMap<String, Ast>` / `-> Vec<Ast>`). -/
inductive Validator where
  | Scalar (optional : Bool) (dflt : Option String)
      (min_length max_length : Option Nat)
  | Numeric (optional : Bool) (dflt : Option Int) (min max : Option Int)
  | Directory (optional : Bool) (dflt : Option String)
      (absolute : Option Bool)
  | Structure (members : List (String × Validator)) (optional : Bool)
      (from_scalar : Option (Ast → List (String × Ast)))
  | Enum (options : List (String × Validator)) (optional : Bool)
      (default_tag : Option String) (allow_plain : Bool)
  | Mapping (key_element value_element : Validator)
      (from_scalar : Option (Ast → List (String × Ast)))
  | Sequence (element : Validator) (from_scalar : Option (Ast → List Ast))
  | Anything
  | Nothing

mutual

/-- The `default` method of the `Validator` trait, per implementation. -/
def vdefault : Validator → Pos → Option Ast
  | .Scalar opt dflt _ _, pos =>
    if dflt.isNone ∧ opt then some (.Null pos .NonSpecific .Implicit)
    else dflt.map (fun v => .Scalar pos .NonSpecific .Quoted v)
  | .Numeric opt dflt _ _, pos =>
    if dflt.isNone ∧ opt then some (.Null pos .NonSpecific .Implicit)
    else dflt.map (fun v => .Scalar pos .NonSpecific .Quoted (i64_to_string v))
  | .Directory opt dflt _, pos =>
    if dflt.isNone ∧ opt then some (.Null pos .NonSpecific .Implicit)
    else dflt.map (fun v => .Scalar pos .NonSpecific .Quoted v)
  | .Structure members opt _, pos =>
    if opt then some (.Null pos .NonSpecific .Implicit)
    else some (.Map pos .NonSpecific (defaultMembers members pos []))
  | .Enum _ opt dtag _, pos =>
    match dtag, opt with
    | some t, true => some (.Null pos (.LocalTag t) .Implicit)
    | none, true => some (.Null pos .NonSpecific .Implicit)
    | _, false => none
  | .Mapping _ _ _, pos => some (.Map pos .NonSpecific [])
  | .Sequence _ _, pos => some (.List pos .NonSpecific [])
  | .Anything, _ => none
  | .Nothing, _ => none

/-- `Structure::default`'s member loop: insert each member's default,
skipping members without one. -/
def defaultMembers :
    List (String × Validator) → Pos → List (String × Ast) →
    List (String × Ast)
  | [], _, m => m
  | (k, v) :: rest, pos, m =>
    match vdefault v pos with
    | some val => defaultMembers rest pos (alInsert m k val)
    | none => defaultMembers rest pos m

end

/-- The triage that `Structure::validate` and `Mapping::validate` perform
on their input (`match (ast, self.from_scalar)`): a map's entries, an
implicit null, or an irrecoverable mismatch.  The source's branch order
is preserved: `Map` first, then `Null(Implicit)`, then `Scalar` when a
`from_scalar` hook is configured, otherwise the mismatch arm. -/
inductive StructInput where
  | mapInput (pos : Pos) (items : List (String × Ast))
  | nullImplicit (pos : Pos)
  | mismatch

def structInputOf (fs : Option (Ast → List (String × Ast))) :
    Ast → StructInput
  | .Map pos _ items => .mapInput pos items
  | .Null pos _ .Implicit => .nullImplicit pos
  | .Scalar p t k s =>
    match fs with
    | some f => .mapInput p (f (.Scalar p t k s))
    | none => .mismatch
  | _ => .mismatch

/-- The same triage for `Sequence::validate`. -/
inductive SeqInput where
  | listInput (pos : Pos) (items : List Ast)
  | nullImplicit (pos : Pos)
  | mismatch

def seqInputOf (fs : Option (Ast → List Ast)) : Ast → SeqInput
  | .List pos _ items => .listInput pos items
  | .Null pos _ .Implicit => .nullImplicit pos
  | .Scalar p t k s =>
    match fs with
    | some f => .listInput p (f (.Scalar p t k s))
    | none => .mismatch
  | _ => .mismatch

/-- The set of leftover keys flagged by `Structure::validate`: keys of
the processed map that do not start with `_`, minus the declared member
names.  (The source collects them into a `HashSet`; the model keeps map
order.) -/
def unexpectedKeys (names : List String) (m : List (String × Ast)) :
    List String :=
  (m.map Prod.fst).filter
    (fun s => !(startsWithUnderscore s) && !(names.contains s))

def quoteKey (s : String) : String := "\"" ++ s ++ "\""

/-- `format!("Keys {:?} are not expected", keys)`. -/
def keysMessage (ks : List String) : String :=
  "Keys \x7b" ++ String.intercalate ", " (ks.map quoteKey) ++
    "\x7d are not expected"

/-- `format!("One of the tags {:?} expected", names)`. -/
def oneOfTagsMessage (names : List String) : String :=
  "One of the tags [" ++ String.intercalate ", " (names.map quoteKey) ++
    "] expected"

mutual

/-- The `validate` method of the `Validator` trait, per implementation.
The error collector is threaded as the live error list; the result is
`none` when the source panics (a consumed-collector panic cannot occur
inside `validate`, so the `none` cases are `Structure::validate`'s
`unwrap` of `Structure::default` and `Mapping::validate`'s
`unreachable!` when a key validator returns a non-scalar). -/
def validate : Validator → Ast → ErrorList → Option (Ast × ErrorList)
  | .Scalar opt _dflt minl maxl, ast, errs =>
    match ast with
    | .Scalar pos _ kind val =>
      let e1 := errs ++
        (match minl with
         | some m =>
           if utf8Len val < m then
             [Error.validation_error pos
               ("Value must be at least " ++ natToString m ++ " characters")]
           else []
         | none => [])
      let e2 := e1 ++
        (match maxl with
         | some m =>
           if utf8Len val > m then
             [Error.validation_error pos
               ("Value must be at most " ++ natToString m ++ " characters")]
           else []
         | none => [])
      some (.Scalar pos .NonSpecific kind val, e2)
    | .Null _ _ _ =>
      if opt then some (ast, errs)
      else some (ast, errs ++ [Error.validation_error ast.pos "Value must be scalar"])
    | _ =>
      some (ast, errs ++ [Error.validation_error ast.pos "Value must be scalar"])
  | .Numeric opt _dflt mn mx, ast, errs =>
    match ast with
    | .Scalar pos tag kind s =>
      match from_numeric s with
      | some v =>
        let e1 := errs ++
          (match mn with
           | some m =>
             if v < m then
               [Error.validation_error pos
                 ("Value must be at least " ++ i64_to_string m)]
             else []
           | none => [])
        let e2 := e1 ++
          (match mx with
           | some m =>
             if v > m then
               [Error.validation_error pos
                 ("Value must be at most " ++ i64_to_string m)]
             else []
           | none => [])
        some (.Scalar pos .NonSpecific .Plain (i64_to_string v), e2)
      | none =>
        some (.Scalar pos tag kind s,
          errs ++ [Error.validation_error pos "Value must be numeric"])
    | .Null _ _ _ =>
      if opt then some (ast, errs)
      else some (ast, errs ++ [Error.validation_error ast.pos "Value must be scalar"])
    | _ =>
      some (ast, errs ++ [Error.validation_error ast.pos "Value must be scalar"])
  | .Directory opt _dflt abs, ast, errs =>
    match ast with
    | .Scalar pos _ kind val =>
      let checks :=
        match abs with
        | some true =>
          if !(isAbsolutePath val) then
            [Error.validation_error pos "Path must be absolute"]
          else []
        | some false =>
          if isAbsolutePath val then
            [Error.validation_error pos "Path must not be absolute"]
          else
            List.replicate (parentDirCount val)
              (Error.validation_error pos "The /../ is not allowed in path")
        | none => []
      some (.Scalar pos .NonSpecific kind val, errs ++ checks)
    | .Null _ _ _ =>
      if opt then some (ast, errs)
      else some (ast, errs ++ [Error.validation_error ast.pos "Path expected"])
    | _ =>
      some (ast, errs ++ [Error.validation_error ast.pos "Path expected"])
  | .Structure members opt fs, ast, errs =>
    match structInputOf fs ast with
    | .mapInput pos items =>
      match validateMembers members pos items errs with
      | some (m', e') =>
        let ks := unexpectedKeys (members.map Prod.fst) m'
        some (.Map pos .NonSpecific m',
          if ks.length > 0 then
            e' ++ [Error.validation_error pos (keysMessage ks)]
          else e')
      | none => none
    | .nullImplicit pos =>
      match vdefault (.Structure members opt fs) pos with
      | some x => some (x, errs)
      | none => none
    | .mismatch =>
      some (ast, errs ++ [Error.validation_error ast.pos "Value must be mapping"])
  | .Enum options _opt dtag allowPlain, ast, errs =>
    match ast.tag with
    | .LocalTag t => enumDispatch options t ast errs
    | .NonSpecific =>
      match
        (match allowPlain, ast with
         | true, .Scalar pos _ _ val => enumPlainLoop options val pos errs
         | _, _ => some none) with
      | none => none
      | some (some r) => some r
      | some none =>
        match dtag with
        | some t => enumDispatch options t ast errs
        | none =>
          some (ast, errs ++
            [Error.validation_error ast.pos
              (oneOfTagsMessage (options.map Prod.fst))])
  | .Mapping ke ve fs, ast, errs =>
    match structInputOf fs ast with
    | .mapInput pos items =>
      match mapEntriesLoop (ke, ve) items [] errs with
      | some (res, e') => some (.Map pos .NonSpecific res, e')
      | none => none
    | .nullImplicit pos => some (.Map pos .NonSpecific [], errs)
    | .mismatch =>
      some (ast, errs ++ [Error.validation_error ast.pos "Value must be mapping"])
  | .Sequence el fs, ast, errs =>
    match seqInputOf fs ast with
    | .listInput pos items =>
      match seqEntriesLoop el items [] errs with
      | some (res, e') => some (.List pos .NonSpecific res, e')
      | none => none
    | .nullImplicit pos => some (.List pos .NonSpecific [], errs)
    | .mismatch =>
      some (ast, errs ++ [Error.validation_error ast.pos "Value must be sequence"])
  | .Anything, ast, errs => some (ast, errs)
  | .Nothing, ast, errs =>
    match ast with
    | .Null _ _ _ => some (ast, errs)
    | _ =>
      some (ast, errs ++
        [Error.parse_error ast.pos
          ("Null expected, " ++ ast.render ++ " found")])
termination_by v ast errs => (sizeOf v, sizeOf ast)
decreasing_by all_goals first
  | decreasing_tactic
  | (cases fs <;> decreasing_tactic)

/-- `Structure::validate`'s member loop.  For each declared member both
`map.remove(k)` and `map.remove(&k.replace("_", "-"))` run (the second
is an eagerly evaluated argument of `Option::or`); the found value is
validated, an absent member falls back to the member's default, and a
member with neither reports "Field {k} is expected" and is omitted. -/
def validateMembers :
    List (String × Validator) → Pos → List (String × Ast) → ErrorList →
    Option (List (String × Ast) × ErrorList)
  | [], _, m, errs => some (m, errs)
  | (k, v) :: rest, pos, m, errs =>
    let r1 := alRemove m k
    let r2 := alRemove r1.2 (dashed k)
    match r1.1.or r2.1 with
    | some src =>
      match validate v src errs with
      | some (value, e1) => validateMembers rest pos (alInsert r2.2 k value) e1
      | none => none
    | none =>
      match vdefault v pos with
      | some x => validateMembers rest pos (alInsert r2.2 k x) errs
      | none =>
        validateMembers rest pos r2.2
          (errs ++ [Error.validation_error pos ("Field " ++ k ++ " is expected")])
termination_by ms pos m errs => (sizeOf ms, 0)
decreasing_by all_goals decreasing_tactic

/-- The `allow_plain` probe of `Enum::validate`: the first declared
option whose name equals the scalar text is validated against a
synthetic `Null(Implicit)` at the scalar's position and stamped with the
variant tag; `some none` means no option matched and control falls
through. -/
def enumPlainLoop :
    List (String × Validator) → String → Pos → ErrorList →
    Option (Option (Ast × ErrorList))
  | [], _, _, _ => some none
  | (k, vv) :: rest, val, pos, errs =>
    if k = val then
      match validate vv (.Null pos .NonSpecific .Implicit) errs with
      | some (value, e1) => some (some (value.with_tag (.LocalTag k), e1))
      | none => none
    else enumPlainLoop rest val pos errs
termination_by l val pos errs => (sizeOf l, 0)
decreasing_by all_goals decreasing_tactic

/-- The tag-dispatch loop of `Enum::validate`: the first declared option
whose name equals the resolved tag validates the whole input node, and
the result is stamped with the tag; if no option matches, "The tag {t}
is not expected" is reported and the input is returned unchanged. -/
def enumDispatch :
    List (String × Validator) → String → Ast → ErrorList →
    Option (Ast × ErrorList)
  | [], t, ast, errs =>
    some (ast, errs ++
      [Error.validation_error ast.pos ("The tag " ++ t ++ " is not expected")])
  | (k, vv) :: rest, t, ast, errs =>
    if k = t then
      match validate vv ast errs with
      | some (value, e1) => some (value.with_tag (.LocalTag t), e1)
      | none => none
    else enumDispatch rest t ast errs
termination_by l t ast errs => (sizeOf l, 0)
decreasing_by all_goals decreasing_tactic

/-- `Mapping::validate`'s entry loop: each key is re-wrapped as a
`Plain` scalar at the value's position and run through the key
validator (a non-scalar result is the source's `unreachable!`, modelled
as `none`), each value through the value validator, and the results are
inserted into a fresh map. -/
def mapEntriesLoop :
    Validator × Validator → List (String × Ast) → List (String × Ast) →
    ErrorList → Option (List (String × Ast) × ErrorList)
  | _, [], res, errs => some (res, errs)
  | (ke, ve), (k, v) :: rest, res, errs =>
    match validate ke (.Scalar v.pos .NonSpecific .Plain k) errs with
    | some (.Scalar _ _ _ key, e1) =>
      match validate ve v e1 with
      | some (value, e2) => mapEntriesLoop (ke, ve) rest (alInsert res key value) e2
      | none => none
    | some _ => none
    | none => none
termination_by kv l res errs => (sizeOf kv, sizeOf l)
decreasing_by all_goals decreasing_tactic

/-- `Sequence::validate`'s element loop. -/
def seqEntriesLoop :
    Validator → List Ast → List Ast → ErrorList →
    Option (List Ast × ErrorList)
  | _, [], res, errs => some (res, errs)
  | el, v :: rest, res, errs =>
    match validate el v errs with
    | some (value, e1) => seqEntriesLoop el rest (res ++ [value]) e1
    | none => none
termination_by el l res errs => (sizeOf el, sizeOf l)
decreasing_by all_goals decreasing_tactic

end

/-! ## Derived notions used by the statements -/

/-- A fixed position for concrete instantiations. -/
def pos0 : Pos := ⟨"config.yaml", 1, 1⟩

/-- The shapes a scalar-level validator (`Scalar`, `Numeric`,
`Directory`) cannot locally recover from: neither a `Scalar` nor — when
the validator is optional — a `Null`. -/
def notScalarShape (opt : Bool) : Ast → Bool
  | .Scalar _ _ _ _ => false
  | .Null _ _ _ => !opt
  | _ => true

/-- The shapes `Structure`/`Mapping` cannot locally recover from: not a
`Map`, not an implicit `Null`, and a `Scalar` only counts when no
`from_scalar` coercion is configured. -/
def notMapShape (fs : Option (Ast → List (String × Ast))) : Ast → Bool
  | .Map _ _ _ => false
  | .Null _ _ .Implicit => false
  | .Scalar _ _ _ _ => fs.isNone
  | _ => true

/-- The shapes `Sequence` cannot locally recover from. -/
def notListShape (fs : Option (Ast → List Ast)) : Ast → Bool
  | .List _ _ _ => false
  | .Null _ _ .Implicit => false
  | .Scalar _ _ _ _ => fs.isNone
  | _ => true

/-- Whether `validate v ast` takes the irrecoverable-shape-mismatch arm
of the respective validator. -/
def shapeMismatch : Validator → Ast → Bool
  | .Scalar opt _ _ _, ast => notScalarShape opt ast
  | .Numeric opt _ _ _, ast => notScalarShape opt ast
  | .Directory opt _ _, ast => notScalarShape opt ast
  | .Structure _ _ fs, ast => notMapShape fs ast
  | .Mapping _ _ fs, ast => notMapShape fs ast
  | .Sequence _ fs, ast => notListShape fs ast
  | .Enum _ _ _ _, _ => false
  | .Anything, _ => false
  | .Nothing, _ => false

/-- The message each validator reports on an irrecoverable shape
mismatch. -/
def mismatchMessage : Validator → String
  | .Scalar _ _ _ _ => "Value must be scalar"
  | .Numeric _ _ _ _ => "Value must be scalar"
  | .Directory _ _ _ => "Path expected"
  | .Structure _ _ _ => "Value must be mapping"
  | .Mapping _ _ _ => "Value must be mapping"
  | .Sequence _ _ => "Value must be sequence"
  | _ => ""

/-- First declared option with the given name — the search both
`Enum::validate` loops perform. -/
def enumFindFirst : List (String × Validator) → String → Option Validator
  | [], _ => none
  | (k, vv) :: rest, val =>
    if k = val then some vv else enumFindFirst rest val

/-- The scalar-level (leaf) validators. -/
def leafValidator : Validator → Bool
  | .Scalar _ _ _ _ => true
  | .Numeric _ _ _ _ => true
  | .Directory _ _ _ => true
  | .Anything => true
  | .Nothing => true
  | _ => false

/-- Unit-suffix stripping, written after the claim: the first table
entry (in declaration order) whose suffix is shorter than the whole
string and ends it is stripped, and its value is the multiplier. -/
def stripUnit (s : String) : String × Int :=
  match NUMERIC_SUFFIXES.find?
      (fun p => decide (p.1.data.length < s.data.length) &&
        p.1.data.isSuffixOf s.data) with
  | some (suf, m) => (strTakeChars s (s.data.length - suf.data.length), m)
  | none => (s, 1)

/-- Radix re-parse, written after the claim: when at least 3 characters
remain, re-parse as hex, octal or binary according to a `0x`/`0o`/`0b`
prefix. -/
def radixRetry (s : String) : Option Int :=
  if 3 ≤ s.data.length then
    if strTakeChars s 2 = "0x" then from_str_radix 16 (strDropChars s 2)
    else if strTakeChars s 2 = "0o" then from_str_radix 8 (strDropChars s 2)
    else if strTakeChars s 2 = "0b" then from_str_radix 2 (strDropChars s 2)
    else none
  else none

/-- The numeric-conversion pipeline as the claim words it: strip a unit
suffix, parse the remaining prefix as decimal, on failure retry as a
radix literal, multiply the result by the suffix value. -/
def fromNumericSpec (s : String) : Option Int :=
  let body := (stripUnit s).1
  let mult := (stripUnit s).2
  match from_str_radix 10 body with
  | some v => some (wrap64 (v * mult))
  | none => (radixRetry body).map (fun v => wrap64 (v * mult))

/-! ## Helper lemmas -/

theorem alRemove_fst (m : List (String × Ast)) (k : String) :
    (alRemove m k).1 = alLookup m k := by
  induction m with
  | nil => rfl
  | cons kv rest ih =>
    obtain ⟨k', v⟩ := kv
    simp only [alRemove, alLookup]
    split <;> simp [ih]

theorem alRemove_of_none (m : List (String × Ast)) (k : String)
    (h : alLookup m k = none) : alRemove m k = (none, m) := by
  induction m with
  | nil => rfl
  | cons kv rest ih =>
    obtain ⟨k', v⟩ := kv
    simp only [alLookup] at h
    simp only [alRemove]
    rcases eq_or_ne k' k with he | he
    · simp [he] at h
    · simp only [if_neg he] at h ⊢
      simp [ih h]

theorem record_live (es l : List Error) :
    ErrorCollector.record (some l) es = some (some (l ++ es)) := by
  induction es generalizing l with
  | nil => simp [ErrorCollector.record]
  | cons e es ih =>
    simp [ErrorCollector.record, ErrorCollector.add_error, ih]

theorem mapRepl_ne {l : List Char} (h : '_' ∈ l) :
    l.map (fun c => if c = '_' then '-' else c) ≠ l := by
  induction l with
  | nil => simp at h
  | cons c cs ih =>
    rcases eq_or_ne c '_' with hc | hc
    · subst hc
      simp only [List.map_cons, if_pos rfl, ne_eq, List.cons.injEq, not_and]
      intro hcontra
      exact absurd hcontra (by decide)
    · have hmem : '_' ∈ cs := by
        rcases List.mem_cons.mp h with h1 | h1
        · exact absurd h1.symm hc
        · exact h1
      simp only [List.map_cons, if_neg hc, ne_eq, List.cons.injEq, true_and]
      exact ih hmem

theorem dashed_ne (s : String) (h : '_' ∈ s.data) : dashed s ≠ s := by
  intro hc
  have hd := congrArg String.data hc
  simp only [dashed] at hd
  exact mapRepl_ne h hd

/-! ## The claims -/

/-- C1: every validator among `Scalar`, `Numeric`, `Directory`,
`Structure`, `Mapping` and `Sequence`, given an input node of a shape it
cannot locally recover from, reports exactly one error (with the
validator's shape-mismatch message at the input's position) and returns
the original input node unchanged. -/
theorem c1_shape_mismatch (v : Validator) (ast : Ast) (errs : ErrorList)
    (h : shapeMismatch v ast = true) :
    validate v ast errs =
      some (ast, errs ++ [Error.validation_error ast.pos (mismatchMessage v)]) := by
  cases v <;>
    rcases ast with ⟨p, t, k, s⟩ | ⟨p, t, es⟩ | ⟨p, t, els⟩ | ⟨p, t, nk⟩ <;>
    try cases nk
  all_goals
    simp_all [shapeMismatch, notScalarShape, notMapShape, notListShape,
      validate, structInputOf, seqInputOf, mismatchMessage, Ast.pos]

/-- C1 (witness): a `Scalar` validator given a `Map` reports exactly one
"Value must be scalar" error and returns the map unchanged. -/
theorem c1_shape_mismatch_witness :
    shapeMismatch (.Scalar false none none none) (.Map pos0 .NonSpecific []) = true ∧
    validate (.Scalar false none none none) (.Map pos0 .NonSpecific []) [] =
      some (.Map pos0 .NonSpecific [],
        [Error.validation_error pos0 "Value must be scalar"]) :=
  ⟨rfl, c1_shape_mismatch _ _ _ rfl⟩

/-- C3 (counterexample): the length bounds are checked against the byte
count, not the character count: "é" is one character but two bytes, so a
`min_length 2` bound reports no error on it, contradicting the
character-count reading of the claim. -/
theorem c3_counterexample :
    ("é".data.length = 1) ∧ (utf8Len "é" = 2) ∧
    validate (.Scalar false none (some 2) none)
      (.Scalar pos0 .NonSpecific .Plain "é") [] =
      some (.Scalar pos0 .NonSpecific .Plain "é", []) := by
  refine ⟨by decide, by decide, ?_⟩
  simp [validate]
  decide

/-- C3 (amended): `Scalar::validate` checks `min_length` and
`max_length` against the UTF-8 byte count of the scalar's text (Rust's
`str::len()`), each bound independently (both can be reported in one
call), with messages "Value must be at least/at most N characters". -/
theorem c3_length_bounds (opt : Bool) (dflt : Option String)
    (mn mx : Option Nat) (pos : Pos) (tag : Tag) (kind : ScalarKind)
    (s : String) (errs : ErrorList) :
    validate (.Scalar opt dflt mn mx) (.Scalar pos tag kind s) errs =
      some (.Scalar pos .NonSpecific kind s,
        errs ++
          ((match mn with
            | some m =>
              if utf8Len s < m then
                [Error.validation_error pos
                  ("Value must be at least " ++ natToString m ++ " characters")]
              else []
            | none => []) ++
           (match mx with
            | some m =>
              if utf8Len s > m then
                [Error.validation_error pos
                  ("Value must be at most " ++ natToString m ++ " characters")]
              else []
            | none => []))) := by
  cases mn <;> cases mx <;> simp [validate, List.append_assoc]

/-- C7: `into_result(val)` on a session in which exactly the errors `es`
were recorded fails with the ordered list `es` if and only if at least
one error was recorded, and returns `Ok val` if and only if none was. -/
theorem c7_into_result {T : Type} (es : List Error) (val : T) :
    ErrorCollector.record ErrorCollector.new es = some (some es) ∧
    (ErrorCollector.into_result (some es) val = some (.error es, none) ↔ es ≠ []) ∧
    (ErrorCollector.into_result (some es) val = some (.ok val, none) ↔ es = []) := by
  refine ⟨by simpa [ErrorCollector.new] using record_live es [], ?_, ?_⟩ <;>
    cases es <;> simp [ErrorCollector.into_result]

/-- C9: the first terminal consume of a live collector succeeds and
empties the cell; any terminal consume of — or `add_error` on — a
consumed collector is a panic (`none`), not a silent no-op. -/
theorem c9_single_consume {T : Type} (l : List Error) (e : Error) (val : T) :
    (∃ r, ErrorCollector.into_result (some l) val = some (r, none)) ∧
    ErrorCollector.into_fatal (some l) e = some (l ++ [e], none) ∧
    ErrorCollector.unwrap (some l) = some (l, none) ∧
    ErrorCollector.into_result (none : CollectorState) val = none ∧
    ErrorCollector.into_fatal (none : CollectorState) e = none ∧
    ErrorCollector.unwrap (none : CollectorState) = none ∧
    ErrorCollector.add_error (none : CollectorState) e = none :=
  ⟨⟨_, rfl⟩, rfl, rfl, rfl, rfl, rfl, rfl⟩

/-- C10: `Structure::default` is total — `Null(Implicit)` when optional,
otherwise a map of the members' defaults — so the `unwrap` in
`Structure::validate`'s implicit-null branch cannot panic, and a
`Structure`-typed member absent from the input map is always filled from
its default, never reporting "Field X is expected". -/
theorem c10_structure_default_total :
    (∀ (members : List (String × Validator)) (opt : Bool)
       (fs : Option (Ast → List (String × Ast))) (pos : Pos),
       vdefault (.Structure members opt fs) pos =
         some (if opt then .Null pos .NonSpecific .Implicit
               else .Map pos .NonSpecific (defaultMembers members pos []))) ∧
    (∀ (members : List (String × Validator)) (opt : Bool)
       (fs : Option (Ast → List (String × Ast))) (pos : Pos) (tag : Tag)
       (errs : ErrorList),
       ∃ d, vdefault (.Structure members opt fs) pos = some d ∧
         validate (.Structure members opt fs) (.Null pos tag .Implicit) errs =
           some (d, errs)) ∧
    (∀ (k : String) (ms2 : List (String × Validator)) (o2 : Bool)
       (f2 : Option (Ast → List (String × Ast)))
       (rest : List (String × Validator)) (pos : Pos)
       (m : List (String × Ast)) (errs : ErrorList),
       alLookup m k = none → alLookup m (dashed k) = none →
       ∃ d, vdefault (.Structure ms2 o2 f2) pos = some d ∧
         validateMembers ((k, .Structure ms2 o2 f2) :: rest) pos m errs =
           validateMembers rest pos (alInsert m k d) errs) := by
  refine ⟨?_, ?_, ?_⟩
  · intro members opt fs pos
    cases opt <;> simp [vdefault]
  · intro members opt fs pos tag errs
    cases opt <;> simp [vdefault, validate, structInputOf]
  · intro k ms2 o2 f2 rest pos m errs h1 h2
    have hrm := alRemove_of_none m k h1
    have hrm2 := alRemove_of_none m (dashed k) h2
    refine ⟨if o2 then .Null pos .NonSpecific .Implicit
            else .Map pos .NonSpecific (defaultMembers ms2 pos []), ?_, ?_⟩
    · cases o2 <;> simp [vdefault]
    · simp only [validateMembers, hrm, hrm2, Option.or_self]
      cases o2 <;> simp [vdefault]

/-- C10 (witness): a required empty sub-`Structure` member, absent from
the input, is filled from its (total) default and no "Field X is
expected" error is reported. -/
theorem c10_structure_default_total_witness :
    ∃ d, vdefault (.Structure [] false none) pos0 = some d ∧
      validateMembers [("sub", .Structure [] false none)] pos0 [] [] =
        validateMembers [] pos0 (alInsert [] "sub" d) [] :=
  c10_structure_default_total.2.2 "sub" [] false none [] pos0 [] [] rfl rfl

theorem enumPlainLoop_eq (options : List (String × Validator)) (val : String)
    (pos : Pos) (errs : ErrorList) :
    enumPlainLoop options val pos errs =
      match enumFindFirst options val with
      | some vv =>
        (validate vv (.Null pos .NonSpecific .Implicit) errs).map
          (fun r => some (r.1.with_tag (.LocalTag val), r.2))
      | none => some none := by
  induction options with
  | nil => simp [enumPlainLoop, enumFindFirst]
  | cons kv rest ih =>
    obtain ⟨k, vv⟩ := kv
    rcases eq_or_ne k val with he | he
    · subst he
      simp only [enumPlainLoop, enumFindFirst, if_pos rfl]
      cases hval : validate vv (.Null pos .NonSpecific .Implicit) errs with
      | none => simp [hval]
      | some r => simp [hval]
    · simp only [enumPlainLoop, enumFindFirst, if_neg he, ih]

theorem enumDispatch_eq (options : List (String × Validator)) (t : String)
    (ast : Ast) (errs : ErrorList) :
    enumDispatch options t ast errs =
      match enumFindFirst options t with
      | some vv =>
        (validate vv ast errs).map
          (fun r => (r.1.with_tag (.LocalTag t), r.2))
      | none =>
        some (ast, errs ++
          [Error.validation_error ast.pos ("The tag " ++ t ++ " is not expected")]) := by
  induction options with
  | nil => simp [enumDispatch, enumFindFirst]
  | cons kv rest ih =>
    obtain ⟨k, vv⟩ := kv
    rcases eq_or_ne k t with he | he
    · subst he
      simp only [enumDispatch, enumFindFirst, if_pos rfl]
      cases hval : validate vv ast errs with
      | none => simp [hval]
      | some r => simp [hval]
    · simp only [enumDispatch, enumFindFirst, if_neg he, ih]

/-- C4: for a declared member `k`, `Structure::validate` takes the value
bound to the exact name when present, and otherwise the value bound to
the underscores-to-hyphens alias; a single-member structure validates a
map written with either spelling to the same result. -/
theorem c4_member_alias :
    (∀ (k : String) (v : Validator) (rest : List (String × Validator))
       (pos : Pos) (m : List (String × Ast)) (errs : ErrorList) (val : Ast),
       alLookup m k = some val →
       validateMembers ((k, v) :: rest) pos m errs =
         match validate v val errs with
         | some (value, e1) =>
           validateMembers rest pos
             (alInsert (alRemove (alRemove m k).2 (dashed k)).2 k value) e1
         | none => none) ∧
    (∀ (k : String) (v : Validator) (rest : List (String × Validator))
       (pos : Pos) (m : List (String × Ast)) (errs : ErrorList) (val : Ast),
       alLookup m k = none → alLookup m (dashed k) = some val →
       validateMembers ((k, v) :: rest) pos m errs =
         match validate v val errs with
         | some (value, e1) =>
           validateMembers rest pos (alInsert (alRemove m (dashed k)).2 k value) e1
         | none => none) ∧
    (∀ (k : String) (v : Validator) (opt : Bool)
       (fs : Option (Ast → List (String × Ast))) (pos : Pos) (tag : Tag)
       (val : Ast) (errs : ErrorList),
       '_' ∈ k.data →
       validate (.Structure [(k, v)] opt fs) (.Map pos tag [(k, val)]) errs =
         validate (.Structure [(k, v)] opt fs)
           (.Map pos tag [(dashed k, val)]) errs) := by
  refine ⟨?_, ?_, ?_⟩
  · intro k v rest pos m errs val h
    have h1 : (alRemove m k).1 = some val := (alRemove_fst m k).trans h
    simp only [validateMembers, h1, Option.or]
  · intro k v rest pos m errs val h1 h2
    have hr1 := alRemove_of_none m k h1
    have hr2 : (alRemove m (dashed k)).1 = some val :=
      (alRemove_fst m (dashed k)).trans h2
    simp only [validateMembers, hr1, hr2, Option.or]
  · intro k v opt fs pos tag val errs h
    have hne : dashed k ≠ k := dashed_ne k h
    simp only [validate, structInputOf, validateMembers, alRemove,
      if_pos rfl, if_neg hne, Option.or]
    cases hv : validate v val errs with
    | none => rfl
    | some r => rfl

/-- C4 (witness): with a `some_key` member, a map containing `some-key`
validates exactly as one containing `some_key`. -/
theorem c4_member_alias_witness :
    validate (.Structure [("some_key", .Anything)] false none)
      (.Map pos0 .NonSpecific [("some_key", .Scalar pos0 .NonSpecific .Plain "13")]) [] =
    validate (.Structure [("some_key", .Anything)] false none)
      (.Map pos0 .NonSpecific [("some-key", .Scalar pos0 .NonSpecific .Plain "13")]) [] :=
  c4_member_alias.2.2 "some_key" .Anything false none pos0 .NonSpecific
    (.Scalar pos0 .NonSpecific .Plain "13") [] (by decide)

/-- C5: after the member pass, `Structure::validate` reports the
remaining keys that do not start with `_` and are not declared member
names in one single aggregated error naming exactly those keys, and
appends nothing when there is no such key. -/
theorem c5_unexpected_keys (members : List (String × Validator)) (opt : Bool)
    (fs : Option (Ast → List (String × Ast))) (pos : Pos) (tag : Tag)
    (items : List (String × Ast)) (errs : ErrorList)
    (m' : List (String × Ast)) (e' : ErrorList)
    (h : validateMembers members pos items errs = some (m', e')) :
    (validate (.Structure members opt fs) (.Map pos tag items) errs =
      some (.Map pos .NonSpecific m',
        if (unexpectedKeys (members.map Prod.fst) m').length > 0 then
          e' ++ [Error.validation_error pos
            (keysMessage (unexpectedKeys (members.map Prod.fst) m'))]
        else e')) ∧
    (∀ s, s ∈ unexpectedKeys (members.map Prod.fst) m' ↔
      (s ∈ m'.map Prod.fst ∧ startsWithUnderscore s = false ∧
        s ∉ members.map Prod.fst)) := by
  constructor
  · simp only [validate, structInputOf, h]
  · intro s
    simp [unexpectedKeys, List.mem_filter, and_assoc]

/-- C5 (witness): one member `a`; the input map carries undeclared keys
`b` and `c` and an underscore key `_p`; the validation reports exactly
one error, naming `b` and `c` and not `_p`. -/
theorem c5_unexpected_keys_witness :
    validate (.Structure [("a", .Anything)] false none)
      (.Map pos0 .NonSpecific
        [("_p", .Null pos0 .NonSpecific .Explicit),
         ("a", .Null pos0 .NonSpecific .Explicit),
         ("b", .Null pos0 .NonSpecific .Explicit),
         ("c", .Null pos0 .NonSpecific .Explicit)]) [] =
      some (.Map pos0 .NonSpecific
        [("_p", .Null pos0 .NonSpecific .Explicit),
         ("a", .Null pos0 .NonSpecific .Explicit),
         ("b", .Null pos0 .NonSpecific .Explicit),
         ("c", .Null pos0 .NonSpecific .Explicit)],
        [Error.validation_error pos0 (keysMessage ["b", "c"])]) := by
  have h : validateMembers [("a", .Anything)] pos0
      [("_p", .Null pos0 .NonSpecific .Explicit),
       ("a", .Null pos0 .NonSpecific .Explicit),
       ("b", .Null pos0 .NonSpecific .Explicit),
       ("c", .Null pos0 .NonSpecific .Explicit)] [] =
      some ([("_p", .Null pos0 .NonSpecific .Explicit),
             ("a", .Null pos0 .NonSpecific .Explicit),
             ("b", .Null pos0 .NonSpecific .Explicit),
             ("c", .Null pos0 .NonSpecific .Explicit)], []) := by
    simp [validateMembers, alRemove, dashed, alInsert, validate, strLtB]
  have hmain := (c5_unexpected_keys [("a", .Anything)] false none pos0
    .NonSpecific _ [] _ [] h).1
  simpa [unexpectedKeys, startsWithUnderscore, keysMessage] using hmain

theorem validate_enum_localtag (options : List (String × Validator))
    (opt : Bool) (dtag : Option String) (ap : Bool) (ast : Ast)
    (errs : ErrorList) (t : String) (h : ast.tag = .LocalTag t) :
    validate (.Enum options opt dtag ap) ast errs =
      enumDispatch options t ast errs := by
  cases ast <;> (simp only [Ast.tag] at h; subst h) <;> cases ap <;>
    cases dtag <;> simp [validate, Ast.tag]

/-- C6: with `allow_plain`, an untagged scalar whose text equals the
first declared option of that name runs that option's validator on a
synthetic `Null(Implicit)` at the scalar's position and stamps the
result with the variant's `LocalTag`; for a `Nothing` payload this
coincides with validating the explicitly tagged implicit null. -/
theorem c6_enum_plain :
    (∀ (options : List (String × Validator)) (opt : Bool)
       (dtag : Option String) (pos : Pos) (kind : ScalarKind) (val : String)
       (vv : Validator) (errs : ErrorList),
       enumFindFirst options val = some vv →
       validate (.Enum options opt dtag true)
           (.Scalar pos .NonSpecific kind val) errs =
         (validate vv (.Null pos .NonSpecific .Implicit) errs).map
           (fun r => (r.1.with_tag (.LocalTag val), r.2))) ∧
    (∀ (options : List (String × Validator)) (opt : Bool)
       (dtag : Option String) (pos : Pos) (kind : ScalarKind) (val : String)
       (errs : ErrorList),
       enumFindFirst options val = some .Nothing →
       validate (.Enum options opt dtag true)
           (.Scalar pos .NonSpecific kind val) errs =
         validate (.Enum options opt dtag true)
           (.Null pos (.LocalTag val) .Implicit) errs) := by
  have main : ∀ (options : List (String × Validator)) (opt : Bool)
      (dtag : Option String) (pos : Pos) (kind : ScalarKind) (val : String)
      (vv : Validator) (errs : ErrorList),
      enumFindFirst options val = some vv →
      validate (.Enum options opt dtag true)
          (.Scalar pos .NonSpecific kind val) errs =
        (validate vv (.Null pos .NonSpecific .Implicit) errs).map
          (fun r => (r.1.with_tag (.LocalTag val), r.2)) := by
    intro options opt dtag pos kind val vv errs h
    cases dtag <;>
      (simp only [validate, Ast.tag, enumPlainLoop_eq, h]
       cases validate vv (.Null pos .NonSpecific .Implicit) errs <;> rfl)
  refine ⟨main, ?_⟩
  intro options opt dtag pos kind val errs h
  rw [main options opt dtag pos kind val .Nothing errs h]
  rw [validate_enum_localtag options opt dtag true
    (.Null pos (.LocalTag val) .Implicit) errs val rfl]
  rw [enumDispatch_eq, h]
  simp [validate, Ast.with_tag]

/-- C6 (witness): with option `Alpha` of `Nothing` payload, the bare
scalar `Alpha` validates identically to the tagged null `!Alpha`. -/
theorem c6_enum_plain_witness :
    validate (.Enum [("Alpha", .Nothing)] false none true)
      (.Scalar pos0 .NonSpecific .Plain "Alpha") [] =
    validate (.Enum [("Alpha", .Nothing)] false none true)
      (.Null pos0 (.LocalTag "Alpha") .Implicit) [] :=
  c6_enum_plain.2 [("Alpha", .Nothing)] false none pos0 .Plain "Alpha" [] rfl

theorem findSuffix_eq (l : List (String × Int)) (s : String) :
    findSuffix l s =
      l.find? (fun p => decide (p.1.data.length < s.data.length) &&
        p.1.data.isSuffixOf s.data) := by
  induction l with
  | nil => rfl
  | cons p rest ih =>
    obtain ⟨suf, m⟩ := p
    simp only [findSuffix, List.find?]
    cases hB : (decide (suf.data.length < s.data.length) &&
        suf.data.isSuffixOf s.data) with
    | false =>
      have hn : ¬(suf.data.length < s.data.length ∧
          suf.data.isSuffixOf s.data = true) := by
        intro hA
        have ht : (decide (suf.data.length < s.data.length) &&
            suf.data.isSuffixOf s.data) = true := by
          rw [Bool.and_eq_true, decide_eq_true_iff]
          exact ⟨hA.1, hA.2⟩
        rw [hB] at ht
        exact Bool.false_ne_true ht
      rw [if_neg hn, ih]
    | true =>
      rw [Bool.and_eq_true, decide_eq_true_iff] at hB
      rw [if_pos hB]

theorem from_numeric_eq_spec (s : String) :
    from_numeric s = fromNumericSpec s := by
  simp only [from_numeric, fromNumericSpec, stripUnit, radixRetry,
    ← findSuffix_eq]
  cases hfs : findSuffix NUMERIC_SUFFIXES s with
  | none =>
    cases hp : from_str_radix 10 s with
    | some v => simp [hp]
    | none =>
      simp only [hp, Option.isNone_none, true_and]
      rcases Nat.lt_or_ge s.data.length 3 with h | h
      · rw [if_neg (show ¬ 2 < s.data.length by omega),
          if_neg (show ¬ 3 ≤ s.data.length by omega)]
      · rw [if_pos (show 2 < s.data.length by omega),
          if_pos (show 3 ≤ s.data.length by omega)]
  | some p =>
    obtain ⟨suf, m⟩ := p
    cases hp : from_str_radix 10
        (strTakeChars s (s.data.length - suf.data.length)) with
    | some v => simp [hp]
    | none =>
      simp only [hp, Option.isNone_none, true_and]
      rcases Nat.lt_or_ge
        (strTakeChars s (s.data.length - suf.data.length)).data.length 3 with h | h
      · rw [if_neg (show ¬ 2 <
            (strTakeChars s (s.data.length - suf.data.length)).data.length by omega),
          if_neg (show ¬ 3 ≤
            (strTakeChars s (s.data.length - suf.data.length)).data.length by omega)]
      · rw [if_pos (show 2 <
            (strTakeChars s (s.data.length - suf.data.length)).data.length by omega),
          if_pos (show 3 ≤
            (strTakeChars s (s.data.length - suf.data.length)).data.length by omega)]

/-- C2: `from_numeric` coincides with the claimed pipeline (first
declaration-order suffix shorter than the whole string is stripped, the
prefix is parsed as decimal, on failure and at least 3 remaining
characters re-parsed by `0x`/`0o`/`0b` prefix, then multiplied by the
suffix value); on success `Numeric::validate` re-emits a `Plain` scalar
holding the canonical decimal string (so "100M" validates like
"100000000"), and on total failure it reports "Value must be numeric". -/
theorem c2_numeric_conversion :
    (∀ s : String, from_numeric s = fromNumericSpec s) ∧
    (∀ (opt : Bool) (dflt : Option Int) (mn mx : Option Int) (pos : Pos)
       (tag : Tag) (kind : ScalarKind) (s : String) (v : Int)
       (errs : ErrorList),
       from_numeric s = some v →
       validate (.Numeric opt dflt mn mx) (.Scalar pos tag kind s) errs =
         some (.Scalar pos .NonSpecific .Plain (i64_to_string v),
           errs ++
             ((match mn with
               | some m =>
                 if v < m then
                   [Error.validation_error pos
                     ("Value must be at least " ++ i64_to_string m)]
                 else []
               | none => []) ++
              (match mx with
               | some m =>
                 if v > m then
                   [Error.validation_error pos
                     ("Value must be at most " ++ i64_to_string m)]
                 else []
               | none => [])))) ∧
    (∀ (opt : Bool) (dflt : Option Int) (mn mx : Option Int) (pos : Pos)
       (tag : Tag) (kind : ScalarKind) (s : String) (errs : ErrorList),
       from_numeric s = none →
       validate (.Numeric opt dflt mn mx) (.Scalar pos tag kind s) errs =
         some (.Scalar pos tag kind s,
           errs ++ [Error.validation_error pos "Value must be numeric"])) ∧
    (∀ (opt : Bool) (dflt : Option Int) (mn mx : Option Int) (pos : Pos)
       (tag : Tag) (kind : ScalarKind) (errs : ErrorList),
       validate (.Numeric opt dflt mn mx) (.Scalar pos tag kind "100M") errs =
       validate (.Numeric opt dflt mn mx)
         (.Scalar pos tag kind "100000000") errs) := by
  refine ⟨from_numeric_eq_spec, ?_, ?_, ?_⟩
  · intro opt dflt mn mx pos tag kind s v errs h
    cases mn <;> cases mx <;> simp [validate, h, List.append_assoc]
  · intro opt dflt mn mx pos tag kind s errs h
    cases mn <;> cases mx <;> simp [validate, h]
  · intro opt dflt mn mx pos tag kind errs
    have h1 : from_numeric "100M" = some 100000000 := by decide
    have h2 : from_numeric "100000000" = some 100000000 := by decide
    cases mn <;> cases mx <;> simp [validate, h1, h2]

/-- C2 (witness): "100M" converts to 100000000 and validates to the
`Plain` scalar "100000000". -/
theorem c2_numeric_conversion_witness :
    from_numeric "100M" = some 100000000 ∧
    validate (.Numeric false none none none)
      (.Scalar pos0 .NonSpecific .Plain "100M") [] =
      some (.Scalar pos0 .NonSpecific .Plain "100000000", []) := by
  refine ⟨by decide, ?_⟩
  have h := c2_numeric_conversion.2.1 false none none none pos0 .NonSpecific
    .Plain "100M" 100000000 [] (by decide)
  have hs : i64_to_string 100000000 = "100000000" := by decide
  simpa [hs] using h

/-! ## Decimal printing round-trips through parsing (for C8) -/

theorem append_singleton_ne {α : Type} (l : List α) (e : α) : l ++ [e] ≠ l := by
  intro h
  have := congrArg List.length h
  simp at this

theorem append_checks_nil {errs X : List Error} (h : errs ++ X = errs) :
    X = [] := by
  have := congrArg List.length h
  simp only [List.length_append] at this
  exact List.length_eq_zero.mp (by omega)

theorem parseDigitsAux_append (b : Nat) (l1 l2 : List Char) (acc : Nat) :
    parseDigitsAux b (l1 ++ l2) acc =
      match parseDigitsAux b l1 acc with
      | some acc' => parseDigitsAux b l2 acc'
      | none => none := by
  induction l1 generalizing acc with
  | nil => rfl
  | cons c cs ih =>
    simp only [List.cons_append, parseDigitsAux]
    cases digitVal b c with
    | some d => exact ih (acc * b + d)
    | none => rfl

theorem digitVal_digitCharOf (d : Nat) (h : d < 10) :
    digitVal 10 (digitCharOf d) = some d := by
  interval_cases d <;> decide

theorem natDigitsAux_parse (fuel : Nat) :
    ∀ n acc, n ≤ fuel →
      parseDigitsAux 10 (natDigitsAux fuel n) acc =
        some (acc * 10 ^ (natDigitsAux fuel n).length + n) := by
  induction fuel with
  | zero =>
    intro n acc hn
    have : n = 0 := by omega
    subst this
    simp [natDigitsAux, parseDigitsAux]
  | succ fuel ih =>
    intro n acc hn
    by_cases hz : n = 0
    · subst hz
      simp [natDigitsAux, parseDigitsAux]
    · have hdiv : n / 10 ≤ fuel := by
        have := Nat.div_lt_self (Nat.pos_of_ne_zero hz) (by omega : 1 < 10)
        omega
      have hstep : natDigitsAux (fuel + 1) n =
          natDigitsAux fuel (n / 10) ++ [digitCharOf (n % 10)] := by
        simp [natDigitsAux, hz]
      rw [hstep, parseDigitsAux_append, ih (n / 10) acc hdiv]
      simp only [parseDigitsAux, digitVal_digitCharOf (n % 10) (Nat.mod_lt n (by omega)),
        List.length_append, List.length_cons, List.length_nil]
      have hmod := Nat.div_add_mod n 10
      have hpow : (10 : Nat) ^ ((natDigitsAux fuel (n / 10)).length + (0 + 1)) =
          10 ^ (natDigitsAux fuel (n / 10)).length * 10 := by
        rw [Nat.zero_add, pow_succ]
      rw [hpow]
      have hring : (acc * 10 ^ (natDigitsAux fuel (n / 10)).length + n / 10) * 10 +
            n % 10 =
          acc * (10 ^ (natDigitsAux fuel (n / 10)).length * 10) +
            (10 * (n / 10) + n % 10) := by
        ring
      rw [hring, hmod]

theorem natDigitsAux_ne_nil (fuel n : Nat) (h1 : n ≠ 0) (h2 : n ≤ fuel) :
    natDigitsAux fuel n ≠ [] := by
  cases fuel with
  | zero => omega
  | succ fuel => simp [natDigitsAux, h1]

theorem parse_natToString (n : Nat) :
    parseDigits 10 (natToString n).data = some n := by
  by_cases hz : n = 0
  · subst hz; decide
  · have hne := natDigitsAux_ne_nil (n + 1) n hz (by omega)
    have hp := natDigitsAux_parse (n + 1) n 0 (by omega)
    simp only [natToString, if_neg hz]
    cases hl : natDigitsAux (n + 1) n with
    | nil => exact absurd hl hne
    | cons c cs =>
      rw [hl] at hp
      simpa [parseDigits, Nat.zero_mul, Nat.zero_add] using hp

theorem natDigitsAux_mem_digit (fuel : Nat) :
    ∀ n c, c ∈ natDigitsAux fuel n → ∃ d, d < 10 ∧ c = digitCharOf d := by
  induction fuel with
  | zero => intro n c hc; simp [natDigitsAux] at hc
  | succ fuel ih =>
    intro n c hc
    by_cases hz : n = 0
    · simp [natDigitsAux, hz] at hc
    · simp only [natDigitsAux, if_neg hz, List.mem_append, List.mem_singleton] at hc
      rcases hc with hc | hc
      · exact ih (n / 10) c hc
      · exact ⟨n % 10, Nat.mod_lt n (by omega), hc⟩

theorem natToString_head_digit (n : Nat) :
    ∃ c cs, (natToString n).data = c :: cs ∧ ∃ d, d < 10 ∧ c = digitCharOf d := by
  by_cases hz : n = 0
  · exact ⟨'0', [], by rw [hz]; rfl, 0, by omega, by decide⟩
  · have hne := natDigitsAux_ne_nil (n + 1) n hz (by omega)
    simp only [natToString, if_neg hz]
    cases hl : natDigitsAux (n + 1) n with
    | nil => exact absurd hl hne
    | cons c cs =>
      refine ⟨c, cs, rfl, ?_⟩
      exact natDigitsAux_mem_digit (n + 1) n c (by rw [hl]; exact List.mem_cons_self c cs)

theorem from_str_radix_ten_i64 (v : Int) (h1 : i64Min ≤ v) (h2 : v ≤ i64Max) :
    from_str_radix 10 (i64_to_string v) = some v := by
  by_cases hneg : v < 0
  · have hdata : (i64_to_string v).data = '-' :: (natToString (-v).toNat).data := by
      simp [i64_to_string, if_pos hneg, String.data_append]
    have hv : -((((-v).toNat : Nat)) : Int) = v := by
      have : ((((-v).toNat : Nat)) : Int) = -v := Int.toNat_of_nonneg (by omega)
      omega
    simp only [from_str_radix, hdata, parse_natToString]
    simp
    have hmax : -v ⊔ 0 = -v := max_eq_left (by omega)
    rw [hmax, neg_neg]
    exact ⟨⟨h1, h2⟩, rfl⟩
  · obtain ⟨c, cs, hdata, d, hd, hc⟩ := natToString_head_digit v.toNat
    have hs : (i64_to_string v).data = c :: cs := by
      unfold i64_to_string
      rw [if_neg hneg]
      exact hdata
    have hcplus : c ≠ '+' := by rw [hc]; interval_cases d <;> decide
    have hcminus : c ≠ '-' := by rw [hc]; interval_cases d <;> decide
    have hparse : parseDigits 10 (c :: cs) = some v.toNat := by
      rw [← hdata]; exact parse_natToString v.toNat
    have hvnat : ((v.toNat : Nat) : Int) = v := Int.toNat_of_nonneg (by omega)
    simp only [from_str_radix, hs]
    split
    · next heq =>
      injection heq with hh htl
      exact absurd hh hcplus
    · next heq =>
      injection heq with hh htl
      exact absurd hh hcminus
    · rw [hparse]
      simp
      exact ⟨⟨Or.inl h1, h2, by norm_num [i64Max]⟩, by omega⟩

theorem natToString_concat (n : Nat) :
    ∃ d, d < 10 ∧ ∃ pre, (natToString n).data = pre ++ [digitCharOf d] := by
  by_cases hz : n = 0
  · exact ⟨0, by omega, [], by rw [hz]; rfl⟩
  · refine ⟨n % 10, Nat.mod_lt n (by omega), natDigitsAux n (n / 10), ?_⟩
    simp [natToString, natDigitsAux, hz]

theorem i64_to_string_concat (v : Int) :
    ∃ d, d < 10 ∧ ∃ pre, (i64_to_string v).data = pre ++ [digitCharOf d] := by
  by_cases hneg : v < 0
  · obtain ⟨d, hd, pre, hpre⟩ := natToString_concat (-v).toNat
    refine ⟨d, hd, '-' :: pre, ?_⟩
    simp [i64_to_string, if_pos hneg, String.data_append, hpre]
  · obtain ⟨d, hd, pre, hpre⟩ := natToString_concat v.toNat
    refine ⟨d, hd, pre, ?_⟩
    simpa [i64_to_string, if_neg hneg] using hpre

theorem not_suffix_of_digit_last (c0 : Char) (sufPre : List Char)
    (s : List Char) (d : Nat) (hc0 : c0 ≠ digitCharOf d)
    (hs : ∃ pre, s = pre ++ [digitCharOf d]) :
    ¬ ((sufPre ++ [c0]).isSuffixOf s = true) := by
  intro hsfx
  obtain ⟨pre, rfl⟩ := hs
  rw [List.isSuffixOf_iff_suffix] at hsfx
  obtain ⟨t, ht⟩ := hsfx
  have hlast : (t ++ (sufPre ++ [c0])).getLast? = some c0 := by
    rw [← List.append_assoc, List.getLast?_concat]
  rw [ht, List.getLast?_concat] at hlast
  exact hc0 (by injection hlast with h; exact h.symm)

theorem findSuffix_i64_to_string (v : Int) :
    findSuffix NUMERIC_SUFFIXES (i64_to_string v) = none := by
  obtain ⟨d, hd, pre, hpre⟩ := i64_to_string_concat v
  have hk := not_suffix_of_digit_last 'k' [] (i64_to_string v).data d
    (by interval_cases d <;> decide) ⟨pre, hpre⟩
  have hM := not_suffix_of_digit_last 'M' [] (i64_to_string v).data d
    (by interval_cases d <;> decide) ⟨pre, hpre⟩
  have hG := not_suffix_of_digit_last 'G' [] (i64_to_string v).data d
    (by interval_cases d <;> decide) ⟨pre, hpre⟩
  have hki := not_suffix_of_digit_last 'i' ['k'] (i64_to_string v).data d
    (by interval_cases d <;> decide) ⟨pre, hpre⟩
  have hMi := not_suffix_of_digit_last 'i' ['M'] (i64_to_string v).data d
    (by interval_cases d <;> decide) ⟨pre, hpre⟩
  have hGi := not_suffix_of_digit_last 'i' ['G'] (i64_to_string v).data d
    (by interval_cases d <;> decide) ⟨pre, hpre⟩
  simp only [NUMERIC_SUFFIXES, findSuffix]
  rw [if_neg (fun hc => hk hc.2), if_neg (fun hc => hM hc.2),
    if_neg (fun hc => hG hc.2), if_neg (fun hc => hki hc.2),
    if_neg (fun hc => hMi hc.2), if_neg (fun hc => hGi hc.2)]

theorem wrap64_range (x : Int) : i64Min ≤ wrap64 x ∧ wrap64 x ≤ i64Max := by
  have e3 : (2 : Int) ^ 63 = 9223372036854775808 := by norm_num
  have e4 : (2 : Int) ^ 64 = 18446744073709551616 := by norm_num
  have hmod1 := Int.emod_nonneg (x + 2 ^ 63)
    (by norm_num : ((2 : Int) ^ 64) ≠ 0)
  have hmod2 := Int.emod_lt_of_pos (x + 2 ^ 63)
    (by norm_num : (0 : Int) < 2 ^ 64)
  unfold wrap64 i64Min i64Max
  rw [e3, e4] at *
  omega

theorem wrap64_eq_self (v : Int) (h1 : i64Min ≤ v) (h2 : v ≤ i64Max) :
    wrap64 v = v := by
  have e3 : (2 : Int) ^ 63 = 9223372036854775808 := by norm_num
  have e4 : (2 : Int) ^ 64 = 18446744073709551616 := by norm_num
  unfold i64Min at h1
  unfold i64Max at h2
  rw [e3] at h1 h2
  unfold wrap64
  rw [Int.emod_eq_of_lt (by omega) (by rw [e3] at *; rw [e4] at *; omega)]
  omega

theorem from_numeric_range (s : String) (v : Int)
    (h : from_numeric s = some v) : i64Min ≤ v ∧ v ≤ i64Max := by
  simp only [from_numeric] at h
  obtain ⟨x, hx, hv⟩ := Option.map_eq_some'.mp h
  rw [← hv]
  exact wrap64_range _

theorem from_numeric_roundtrip (v : Int) (h1 : i64Min ≤ v)
    (h2 : v ≤ i64Max) : from_numeric (i64_to_string v) = some v := by
  simp only [from_numeric, findSuffix_i64_to_string,
    from_str_radix_ten_i64 v h1 h2]
  simp [wrap64_eq_self v h1 h2]

/-- C8 (counterexample): validation is not idempotent on normalized
output.  A required `Numeric` member with default 1, absent from the
input, is filled with the `Quoted` default scalar without validation;
re-validating the zero-error output re-emits that member as a `Plain`
scalar, so the second (also zero-error) run returns a different tree. -/
theorem c8_counterexample :
    validate (.Structure [("a", .Numeric false (some 1) none none)] false none)
        (.Map pos0 .NonSpecific []) [] =
      some (.Map pos0 .NonSpecific
        [("a", .Scalar pos0 .NonSpecific .Quoted "1")], []) ∧
    validate (.Structure [("a", .Numeric false (some 1) none none)] false none)
        (.Map pos0 .NonSpecific
          [("a", .Scalar pos0 .NonSpecific .Quoted "1")]) [] =
      some (.Map pos0 .NonSpecific
        [("a", .Scalar pos0 .NonSpecific .Plain "1")], []) ∧
    (Ast.Map pos0 Tag.NonSpecific
        [("a", .Scalar pos0 .NonSpecific .Plain "1")] ≠
      Ast.Map pos0 Tag.NonSpecific
        [("a", .Scalar pos0 .NonSpecific .Quoted "1")]) := by
  refine ⟨?_, ?_, by simp⟩
  · simp [validate, structInputOf, validateMembers, alRemove, dashed, alInsert,
      vdefault, unexpectedKeys, startsWithUnderscore,
      show i64_to_string 1 = "1" from by decide]
  · simp [validate, structInputOf, validateMembers, alRemove, dashed, alInsert,
      unexpectedKeys, startsWithUnderscore,
      show from_numeric "1" = some 1 from by decide,
      show i64_to_string 1 = "1" from by decide]

/-- C8 (amended): validation is idempotent on normalized output for the
scalar-level validators `Scalar`, `Numeric`, `Directory`, `Anything` and
`Nothing`: when a run reports zero new errors, re-validating its output
returns the identical tree with zero new errors.  (For composite
validators the property fails, because member defaults synthesized for
absent keys are inserted without validation.) -/
theorem c8_idempotent_leaf (v : Validator) (hleaf : leafValidator v = true)
    (ast out : Ast) (errs errs2 : ErrorList)
    (hrun : validate v ast errs = some (out, errs)) :
    validate v out errs2 = some (out, errs2) := by
  cases v with
  | Scalar opt dflt mn mx =>
    cases ast with
    | Scalar pos tag kind s =>
      cases mn with
      | none =>
        cases mx with
        | none =>
          simp only [validate, List.append_nil] at hrun
          rw [Option.some.injEq, Prod.mk.injEq] at hrun
          obtain ⟨hout, -⟩ := hrun
          subst hout
          simp [validate]
        | some m2 =>
          simp only [validate, List.append_nil] at hrun
          rw [Option.some.injEq, Prod.mk.injEq] at hrun
          obtain ⟨hout, herrs⟩ := hrun
          subst hout
          have hB := append_checks_nil herrs
          simp [validate, hB]
      | some m1 =>
        cases mx with
        | none =>
          simp only [validate, List.append_nil] at hrun
          rw [Option.some.injEq, Prod.mk.injEq] at hrun
          obtain ⟨hout, herrs⟩ := hrun
          subst hout
          have hA := append_checks_nil herrs
          simp [validate, hA]
        | some m2 =>
          simp only [validate] at hrun
          rw [Option.some.injEq, Prod.mk.injEq] at hrun
          obtain ⟨hout, herrs⟩ := hrun
          subst hout
          rw [List.append_assoc] at herrs
          obtain ⟨hA, hB⟩ := List.append_eq_nil.mp (append_checks_nil herrs)
          simp [validate, hA, hB]
    | Null p t k =>
      cases opt with
      | true =>
        simp only [validate, if_true] at hrun
        rw [Option.some.injEq, Prod.mk.injEq] at hrun
        obtain ⟨hout, -⟩ := hrun
        subst hout
        simp [validate]
      | false =>
        exfalso
        simp only [validate, Bool.false_eq_true, if_false] at hrun
        rw [Option.some.injEq, Prod.mk.injEq] at hrun
        exact append_singleton_ne errs _ hrun.2
    | Map p t es =>
      exfalso
      simp only [validate] at hrun
      rw [Option.some.injEq, Prod.mk.injEq] at hrun
      exact append_singleton_ne errs _ hrun.2
    | List p t es =>
      exfalso
      simp only [validate] at hrun
      rw [Option.some.injEq, Prod.mk.injEq] at hrun
      exact append_singleton_ne errs _ hrun.2
  | Numeric opt dflt mn mx =>
    cases ast with
    | Scalar pos tag kind s =>
      cases hfn : from_numeric s with
      | none =>
        exfalso
        cases mn <;> cases mx <;>
          (simp only [validate, hfn] at hrun
           rw [Option.some.injEq, Prod.mk.injEq] at hrun
           exact append_singleton_ne errs _ hrun.2)
      | some v0 =>
        obtain ⟨hr1, hr2⟩ := from_numeric_range s v0 hfn
        have hrt := from_numeric_roundtrip v0 hr1 hr2
        cases mn with
        | none =>
          cases mx with
          | none =>
            simp only [validate, hfn, List.append_nil] at hrun
            rw [Option.some.injEq, Prod.mk.injEq] at hrun
            obtain ⟨hout, -⟩ := hrun
            subst hout
            simp [validate, hrt]
          | some m2 =>
            simp only [validate, hfn, List.append_nil] at hrun
            rw [Option.some.injEq, Prod.mk.injEq] at hrun
            obtain ⟨hout, herrs⟩ := hrun
            subst hout
            have hB := append_checks_nil herrs
            simp [validate, hrt, hB]
        | some m1 =>
          cases mx with
          | none =>
            simp only [validate, hfn, List.append_nil] at hrun
            rw [Option.some.injEq, Prod.mk.injEq] at hrun
            obtain ⟨hout, herrs⟩ := hrun
            subst hout
            have hA := append_checks_nil herrs
            simp [validate, hrt, hA]
          | some m2 =>
            simp only [validate, hfn] at hrun
            rw [Option.some.injEq, Prod.mk.injEq] at hrun
            obtain ⟨hout, herrs⟩ := hrun
            subst hout
            rw [List.append_assoc] at herrs
            obtain ⟨hA, hB⟩ := List.append_eq_nil.mp (append_checks_nil herrs)
            simp [validate, hrt, hA, hB]
    | Null p t k =>
      cases opt with
      | true =>
        simp only [validate, if_true] at hrun
        rw [Option.some.injEq, Prod.mk.injEq] at hrun
        obtain ⟨hout, -⟩ := hrun
        subst hout
        simp [validate]
      | false =>
        exfalso
        simp only [validate, Bool.false_eq_true, if_false] at hrun
        rw [Option.some.injEq, Prod.mk.injEq] at hrun
        exact append_singleton_ne errs _ hrun.2
    | Map p t es =>
      exfalso
      simp only [validate] at hrun
      rw [Option.some.injEq, Prod.mk.injEq] at hrun
      exact append_singleton_ne errs _ hrun.2
    | List p t es =>
      exfalso
      simp only [validate] at hrun
      rw [Option.some.injEq, Prod.mk.injEq] at hrun
      exact append_singleton_ne errs _ hrun.2
  | Directory opt dflt abs =>
    cases ast with
    | Scalar pos tag kind s =>
      cases abs with
      | none =>
        simp only [validate, List.append_nil] at hrun
        rw [Option.some.injEq, Prod.mk.injEq] at hrun
        obtain ⟨hout, -⟩ := hrun
        subst hout
        simp [validate]
      | some b =>
        cases b with
        | true =>
          simp only [validate] at hrun
          rw [Option.some.injEq, Prod.mk.injEq] at hrun
          obtain ⟨hout, herrs⟩ := hrun
          subst hout
          have hA := append_checks_nil herrs
          have habs : isAbsolutePath s = true := by
            by_contra hcon
            simp only [Bool.not_eq_true] at hcon
            simp [hcon] at hA
          simp [validate, habs]
        | false =>
          simp only [validate] at hrun
          rw [Option.some.injEq, Prod.mk.injEq] at hrun
          obtain ⟨hout, herrs⟩ := hrun
          subst hout
          have hA := append_checks_nil herrs
          have habs : isAbsolutePath s = false := by
            by_contra hcon
            simp only [Bool.not_eq_false] at hcon
            simp [hcon] at hA
          have hcount : parentDirCount s = 0 := by
            simp [habs] at hA
            exact hA
          simp [validate, habs, hcount]
    | Null p t k =>
      cases opt with
      | true =>
        simp only [validate, if_true] at hrun
        rw [Option.some.injEq, Prod.mk.injEq] at hrun
        obtain ⟨hout, -⟩ := hrun
        subst hout
        simp [validate]
      | false =>
        exfalso
        simp only [validate, Bool.false_eq_true, if_false] at hrun
        rw [Option.some.injEq, Prod.mk.injEq] at hrun
        exact append_singleton_ne errs _ hrun.2
    | Map p t es =>
      exfalso
      simp only [validate] at hrun
      rw [Option.some.injEq, Prod.mk.injEq] at hrun
      exact append_singleton_ne errs _ hrun.2
    | List p t es =>
      exfalso
      simp only [validate] at hrun
      rw [Option.some.injEq, Prod.mk.injEq] at hrun
      exact append_singleton_ne errs _ hrun.2
  | Anything =>
    simp only [validate] at hrun
    rw [Option.some.injEq, Prod.mk.injEq] at hrun
    obtain ⟨hout, -⟩ := hrun
    subst hout
    simp [validate]
  | Nothing =>
    cases ast with
    | Null p t k =>
      simp only [validate] at hrun
      rw [Option.some.injEq, Prod.mk.injEq] at hrun
      obtain ⟨hout, -⟩ := hrun
      subst hout
      simp [validate]
    | Scalar pos tag kind s =>
      exfalso
      simp only [validate] at hrun
      rw [Option.some.injEq, Prod.mk.injEq] at hrun
      exact append_singleton_ne errs _ hrun.2
    | Map p t es =>
      exfalso
      simp only [validate] at hrun
      rw [Option.some.injEq, Prod.mk.injEq] at hrun
      exact append_singleton_ne errs _ hrun.2
    | List p t es =>
      exfalso
      simp only [validate] at hrun
      rw [Option.some.injEq, Prod.mk.injEq] at hrun
      exact append_singleton_ne errs _ hrun.2
  | Structure members opt fs => simp [leafValidator] at hleaf
  | Enum options opt dtag ap => simp [leafValidator] at hleaf
  | Mapping ke ve fs => simp [leafValidator] at hleaf
  | Sequence el fs => simp [leafValidator] at hleaf

/-- C8 (witness): re-validating the normalized output of a `Numeric`
validation returns it unchanged with zero new errors. -/
theorem c8_idempotent_leaf_witness :
    validate (.Numeric false none none none)
      (.Scalar pos0 .NonSpecific .Quoted "0x10") [] =
      some (.Scalar pos0 .NonSpecific .Plain "16", []) ∧
    validate (.Numeric false none none none)
      (.Scalar pos0 .NonSpecific .Plain "16") [] =
      some (.Scalar pos0 .NonSpecific .Plain "16", []) := by
  have h1 : validate (.Numeric false none none none)
      (.Scalar pos0 .NonSpecific .Quoted "0x10") [] =
      some (.Scalar pos0 .NonSpecific .Plain "16", []) := by
    simp [validate, show from_numeric "0x10" = some 16 from by decide,
      show i64_to_string 16 = "16" from by decide]
  exact ⟨h1, c8_idempotent_leaf (.Numeric false none none none) rfl
    (.Scalar pos0 .NonSpecific .Quoted "0x10")
    (.Scalar pos0 .NonSpecific .Plain "16") [] [] h1⟩

end Quire
